import Mathlib

/-!
Verification of the snapshotter repository (src/snapshotter/snapshotter.py):
a shallow embedding of its data model and operations, followed by theorems
about its specified behaviour.

Strings are modelled by Lean `String`, with helper functions mirroring the
Python string and `os.path` operations the code uses.  External command
execution is modelled by a `World` giving each command's outcome as a
function of the command vector and the current directory listing of the
snapshots root; the filesystem effect of a successfully executed command on
that listing is modelled by `applyFx`.
-/

namespace Snapshotter

/-- Model of Python `s.startswith(p)`. -/
def strStartsWith (s p : String) : Bool := p.data.isPrefixOf s.data

/-- Model of Python `s.endswith(p)`. -/
def strEndsWith (s p : String) : Bool := p.data.reverse.isPrefixOf s.data.reverse

/-- Model of Python `c in s` for a single character. -/
def strHasChar (s : String) (c : Char) : Bool := s.data.contains c

/-- Is `n` a contiguous sublist of `h`?  (Helper for substring search.) -/
def subListOf (n : List Char) : List Char → Bool
  | [] => n.isPrefixOf []
  | c :: cs => n.isPrefixOf (c :: cs) || subListOf n cs

/-- Model of Python `needle in hay` for strings (substring containment). -/
def strHasSub (hay needle : String) : Bool := subListOf needle.data hay.data

/-- Split a character list at every occurrence of `c` (Python `str.split(c)`
semantics for a one-character separator: the result is always nonempty and
keeps empty fields). -/
def splitChar (c : Char) : List Char → List (List Char)
  | [] => [[]]
  | x :: xs =>
    match splitChar c xs with
    | [] => [[]]
    | g :: gs => if x = c then [] :: g :: gs else (x :: g) :: gs

/-- Model of Python `s.split(c)` for a one-character separator. -/
def strSplit (s : String) (c : Char) : List String := (splitChar c s.data).map String.mk

/-- Model of Python `s.split(c, 1)[0]` when `c` occurs in `s`: the part
before the first occurrence. -/
def strBeforeFirst (s : String) (c : Char) : String :=
  String.mk (s.data.takeWhile (fun x => x ≠ c))

/-- Model of Python `s.split(c, 1)[1]` when `c` occurs in `s`: the part
after the first occurrence. -/
def strAfterFirst (s : String) (c : Char) : String :=
  String.mk ((s.data.dropWhile (fun x => x ≠ c)).drop 1)

/-- Model of Python `s.rstrip('/')`. -/
def rstripSlash (s : String) : String :=
  String.mk (s.data.reverse.dropWhile (fun x => x = '/')).reverse

/-- The final path component of a path string (the part after the last `/`).
Used only by the filesystem-effect model `applyFx`. -/
def lastComp (s : String) : String :=
  String.mk (s.data.reverse.takeWhile (fun x => x ≠ '/')).reverse

/-- Model of Python `os.path.join(a, b)` for POSIX paths (the code only ever
joins two components). -/
def pathJoin (a b : String) : String :=
  if strStartsWith b "/" then b
  else if a = "" ∨ strEndsWith a "/" then a ++ b
  else a ++ "/" ++ b

/-- Model of the component-folding step of Python `posixpath.normpath`:
drop empty and `.` components, and let `..` cancel a preceding component
unless there is nothing to cancel (at the root, `..` disappears; in a
relative path, leading `..` components accumulate). -/
def normComps (slashes : Nat) (comps : List String) : List String :=
  comps.foldl
    (fun acc comp =>
      if comp = "" ∨ comp = "." then acc
      else if comp ≠ ".." ∨ (slashes = 0 ∧ acc = []) ∨ acc.getLastD "" = ".." then
        acc ++ [comp]
      else if acc ≠ [] then acc.dropLast
      else acc)
    []

/-- Model of Python `posixpath.normpath`. -/
def normPath (p : String) : String :=
  if p = "" then "."
  else
    let slashes : Nat :=
      if strStartsWith p "/" then
        if strStartsWith p "//" ∧ ¬ strStartsWith p "///" then 2 else 1
      else 0
    let comps := strSplit p '/'
    let joined := String.intercalate "/" (normComps slashes comps)
    let res := String.mk (List.replicate slashes '/') ++ joined
    if res = "" then "." else res

/-- Model of Python `os.path.expanduser` restricted to the bare `~` form:
a leading `~` followed by nothing or by a path separator is replaced by the
home directory (stripped of trailing slashes, with the POSIX "result or `/`"
fallback); a `~user` form is returned unchanged, as Python does for an
unknown user (no password-database model). -/
def expandUser (home p : String) : String :=
  if ¬ strStartsWith p "~" then p
  else
    let rest := String.mk (p.data.drop 1)
    if rest.data.takeWhile (fun x => x ≠ '/') ≠ [] then p
    else
      let h := rstripSlash home
      if h ++ rest = "" then "/" else h ++ rest

/-- Model of Python `os.path.abspath` with an explicit current working
directory: join onto `cwd` when the path is relative, then normalize. -/
def absPath (cwd p : String) : String :=
  if strStartsWith p "/" then normPath p else normPath (pathJoin cwd p)

/-- Insert a string into a list so that an ascending list stays ascending.
(Helper for the model of Python `sorted`.) -/
def insertSorted (x : String) : List String → List String
  | [] => [x]
  | y :: ys => if x ≤ y then x :: y :: ys else y :: insertSorted x ys

/-- Model of Python `sorted` on a list of strings: ascending insertion
sort.  Strings compare lexicographically, so for the uniquely determined
ascending order this agrees with any sorting algorithm. -/
def sortStrings (l : List String) : List String := l.foldr insertSorted []

/-- The environment a run executes in: the process's current working
directory and the user's home directory (consumed by the models of
`os.path.abspath` and `os.path.expanduser`). -/
structure Env where
  cwd : String
  home : String

/-- Embedding of `_is_remote`: a path is remote when there is a `:` before
the first path separator. -/
def isRemote (path : String) : Bool :=
  strHasChar ((strSplit path '/').headD "") ':'

/-- Embedding of `_parse_path`: split a remote `user@host:path` specifier
into its parts; resolve a local path to an absolute, home-expanded form. -/
def parsePath (env : Env) (path : String) : Option String × Option String × String :=
  if isRemote path then
    let beforeFirstColon := strBeforeFirst path ':'
    let afterFirstColon := strAfterFirst path ':'
    let user :=
      if strHasChar beforeFirstColon '@' then
        some ((strSplit beforeFirstColon '@').headD "")
      else none
    let host := (strSplit beforeFirstColon '@').getLastD ""
    (user, some host, afterFirstColon)
  else
    (none, none, absPath env.cwd (expandUser env.home path))

/-- Embedding of `_wrap_in_ssh`: prepend `ssh [user@]host` when there is a
non-empty host (Python tests the host's truthiness, so an empty host string
also leaves the command unwrapped). -/
def wrapInSsh (command : List String) (user host : Option String) : List String :=
  match host with
  | none => command
  | some h =>
    if h = "" then command
    else
      let hostPart := (match user with | some u => u ++ "@" | none => "") ++ h
      ["ssh", hostPart] ++ command

/-- Outcome of actually executing one external command: captured combined
stdout-and-stderr text with exit code zero, captured text with a non-zero
exit code, or the executable not being found at all (`errno 2`, carrying the
OS error message). -/
inductive ProcOut where
  | ok (output : String)
  | fail (output : String) (code : Int)
  | notFound (message : String)
deriving DecidableEq

/-- The external world: the outcome of executing a command vector, as a
function of the command and of the current directory listing of the
snapshots root (so a command's outcome may change as snapshots are
evicted). -/
structure World where
  exec : List String → List (String × Bool) → ProcOut

/-- The observable system state threaded through a run: the directory
listing of the snapshots root (entry name paired with an is-directory flag)
and the trace of external commands actually executed, in order. -/
structure St where
  listing : List (String × Bool)
  trace : List (List String)
deriving DecidableEq

/-- The error kinds the program raises: `calledProcess` embeds
`CalledProcessError` (note its `output` field is the captured output with a
space and the exit code appended, exactly as the constructor builds it),
`noSuchCommand` embeds `NoSuchCommandError`, `noSpaceLeft` embeds
`NoSpaceLeftOnDeviceError`, and `noMoreSnapshots` embeds
`NoMoreSnapshotsToRemoveError`. -/
inductive Err where
  | calledProcess (command output : String) (exitValue : Int)
  | noSuchCommand (command message : String)
  | noSpaceLeft (output : String)
  | noMoreSnapshots
deriving DecidableEq

/-- Model of Python `' '.join(command)`. -/
def joinWords (command : List String) : String := String.intercalate " " command

/-- Drop a leading `ssh target` pair so the filesystem-effect model sees the
command that actually runs on the destination host. -/
def stripSsh : List String → List String
  | "ssh" :: _ :: rest => rest
  | c => c

/-- Filesystem effect of a successfully executed command on the snapshots
root's listing.  Only the commands whose effect this run can observe again
are modelled: `rm` deletes the named entry, `mv` renames the staging
directory to its timestamped name, `ln -s` creates the link entry; every
other command (in particular the transfer itself) leaves the listing of the
root unchanged. -/
def applyFx (root : String) (command : List String) (l : List (String × Bool)) :
    List (String × Bool) :=
  match stripSsh command with
  | ["rm", "-r", "-f", p] => l.filter (fun e => !(pathJoin root e.1 == p))
  | ["rm", "-f", p] => l.filter (fun e => !(pathJoin root e.1 == p))
  | ["mv", s, d] => (l.filter (fun e => !(pathJoin root e.1 == s))) ++ [(lastComp d, true)]
  | ["ln", "-s", _, lp] => l ++ [(lastComp lp, false)]
  | _ => l

/-- Embedding of `_run`: when `debug` is set the command is only logged and
`None` is returned; otherwise the command is executed (and recorded in the
trace), its captured output returned on exit code zero, a
`CalledProcessError` raised on non-zero exit (with the exit code appended to
the stored output, as the exception constructor does), and a
`NoSuchCommandError` raised when the executable is missing. -/
def run (w : World) (root : String) (command : List String) (debug : Bool) (st : St) :
    Except Err (Option String) × St :=
  if debug then (Except.ok none, st)
  else
    let st1 : St := { st with trace := st.trace ++ [command] }
    match w.exec command st.listing with
    | ProcOut.ok out =>
      (Except.ok (some out), { st1 with listing := applyFx root command st1.listing })
    | ProcOut.fail out code =>
      (Except.error (Err.calledProcess (joinWords command) (out ++ " " ++ toString code) code),
        st1)
    | ProcOut.notFound msg =>
      (Except.error (Err.noSuchCommand (joinWords command) msg), st1)

/-- Embedding of the rsync command construction in `_rsync`: the fixed flag
list, the caller's extra arguments, a `--dry-run` flag when debugging, the
source with a trailing separator forced, and the staging destination built
from the parsed destination specifier. -/
def rsyncCmd (env : Env) (source dest : String) (debug : Bool) (extraArgs : List String) :
    List String :=
  let source := if strEndsWith source "/" then source else source ++ "/"
  let base := ["rsync", "--archive", "--partial",
    "--partial-dir=partially_transferred_files", "--one-file-system", "--delete",
    "--delete-excluded", "--itemize-changes", "--link-dest=../latest.snapshot",
    "--human-readable", "--quiet", "--compress", "--fuzzy"]
  let cmd := base ++ extraArgs
  let cmd := if debug then cmd ++ ["--dry-run"] else cmd
  let cmd := cmd ++ [source]
  match parsePath env dest with
  | (user, host, snapshotsRoot) =>
    let destArg :=
      (match host with
       | some h => (match user with | some u => u ++ "@" | none => "") ++ h ++ ":"
       | none => "") ++ pathJoin snapshotsRoot "incomplete.snapshot"
    cmd ++ [destArg]

/-- Embedding of `_rsync`: build the command, execute it (note the inner
`_run` call never passes `debug`, so even a dry run really executes rsync),
and reclassify a `CalledProcessError` with exit value 11 whose output
contains "No space left on device" as `NoSpaceLeftOnDeviceError`. -/
def rsync (w : World) (env : Env) (source dest : String) (debug : Bool)
    (extraArgs : List String) (st : St) : Except Err Unit × St :=
  let cmd := rsyncCmd env source dest debug extraArgs
  let root := (parsePath env dest).2.2
  match run w root cmd false st with
  | (Except.ok _, st') => (Except.ok (), st')
  | (Except.error (Err.calledProcess c o e), st') =>
    if e == 11 && strHasSub o "No space left on device" then
      (Except.error (Err.noSpaceLeft o), st')
    else
      (Except.error (Err.calledProcess c o e), st')
  | (Except.error e, st') => (Except.error e, st')

/-- The `mv` command built by `_move_incomplete_dir`. -/
def mvCmd (root date : String) (user host : Option String) : List String :=
  wrapInSsh ["mv", pathJoin root "incomplete.snapshot", pathJoin root (date ++ ".snapshot")]
    user host

/-- Embedding of `_move_incomplete_dir`: move the staging directory to its
timestamped name (over ssh for a remote destination). -/
def moveIncompleteDir (w : World) (root date : String) (user host : Option String)
    (debug : Bool) (st : St) : Except Err (Option String) × St :=
  run w root (mvCmd root date user host) debug st

/-- Embedding of `_rm`: remove a path with `rm -f` (inserting `-r` for a
directory), over ssh for a remote destination. -/
def rm (w : World) (root path : String) (user host : Option String)
    (directory debug : Bool) (st : St) : Except Err (Option String) × St :=
  let command := if directory then ["rm", "-r", "-f", path] else ["rm", "-f", path]
  run w root (wrapInSsh command user host) debug st

/-- Embedding of `_ln`: create a symlink with `ln -s`, over ssh for a remote
destination. -/
def ln (w : World) (root target linkPath : String) (user host : Option String)
    (debug : Bool) (st : St) : Except Err (Option String) × St :=
  run w root (wrapInSsh ["ln", "-s", target, linkPath] user host) debug st

/-- The `rm` command built when `_update_latest_symlink` removes the old
link. -/
def rmLatestCmd (root : String) (user host : Option String) : List String :=
  wrapInSsh ["rm", "-f", pathJoin root "latest.snapshot"] user host

/-- The `ln` command built when `_update_latest_symlink` creates the new
link. -/
def lnLatestCmd (root date : String) (user host : Option String) : List String :=
  wrapInSsh ["ln", "-s", date ++ ".snapshot", pathJoin root "latest.snapshot"] user host

/-- Embedding of `_update_latest_symlink`: remove the existing
`latest.snapshot` link, then create a new relative link to the just-created
snapshot. -/
def updateLatestSymlink (w : World) (date root : String) (user host : Option String)
    (debug : Bool) (st : St) : Except Err (Option String) × St :=
  let target := date ++ ".snapshot"
  let linkName := pathJoin root "latest.snapshot"
  match rm w root (pathJoin root "latest.snapshot") user host false debug st with
  | (Except.ok _, st') => ln w root target linkName user host debug st'
  | (Except.error e, st') => (Except.error e, st')

/-- Embedding of the regex test in `_ls_snapshots`: `re.match` of the
pattern `[0-9]{4}-[0-9]{2}-[0-9]{2}T[0-9]{2}_[0-9]{2}_[0-9]{2}.snapshot`.
The match is anchored only at the start of the name (a name extending the
pattern still matches) and the unescaped `.` matches any character except a
newline. -/
def reMatchSnapshotName (s : String) : Bool :=
  match s.data with
  | y1 :: y2 :: y3 :: y4 :: c1 :: m1 :: m2 :: c2 :: d1 :: d2 :: c3 :: h1 :: h2 :: c4 ::
      n1 :: n2 :: c5 :: s1 :: s2 :: dot :: r1 :: r2 :: r3 :: r4 :: r5 :: r6 :: r7 :: r8 :: _ =>
    y1.isDigit && y2.isDigit && y3.isDigit && y4.isDigit && c1 == '-' &&
    m1.isDigit && m2.isDigit && c2 == '-' && d1.isDigit && d2.isDigit &&
    c3 == 'T' && h1.isDigit && h2.isDigit && c4 == '_' &&
    n1.isDigit && n2.isDigit && c5 == '_' && s1.isDigit && s2.isDigit &&
    dot != '\n' &&
    r1 == 's' && r2 == 'n' && r3 == 'a' && r4 == 'p' && r5 == 's' && r6 == 'h' &&
    r7 == 'o' && r8 == 't'
  | _ => false

/-- Embedding of `_ls_snapshots`: the immediate subdirectories of the root
whose name passes the regex test, joined to the root and sorted ascending
by the resulting path string. -/
def lsSnapshots (dest : String) (listing : List (String × Bool)) : List String :=
  sortStrings ((listing.filter (fun e => e.2 && reMatchSnapshotName e.1)).map
    (fun e => pathJoin dest e.1))

/-- Embedding of `_remove_oldest_snapshot`: list the snapshots; fail with
`NoMoreSnapshotsToRemoveError` if there are no more than `minSnapshots` of
them, otherwise remove the first (oldest) one recursively. -/
def removeOldestSnapshot (w : World) (dest : String) (user host : Option String)
    (minSnapshots : Nat) (debug : Bool) (st : St) : Except Err Unit × St :=
  let snapshots := lsSnapshots dest st.listing
  if h : snapshots.length ≤ minSnapshots then
    (Except.error Err.noMoreSnapshots, st)
  else
    let oldest := snapshots.head (by
      intro hnil
      exact h (by simp [hnil]))
    match rm w dest oldest user host true debug st with
    | (Except.ok _, st') => (Except.ok (), st')
    | (Except.error e, st') => (Except.error e, st')

/-- Result of a whole orchestration run: success, a raised error, or fuel
exhaustion of the model's bounded unfolding of the `while True` retry
loop. -/
inductive Outcome where
  | ok
  | err (e : Err)
  | fuelOut
deriving DecidableEq

/-- Embedding of the `while True` retry loop in `snapshot`, unfolded on
explicit fuel: run the transfer; on `NoSpaceLeftOnDeviceError` evict the
oldest snapshot and retry; break on success; propagate every other
error. -/
def snapshotLoop (w : World) (env : Env) (source dest : String) (debug : Bool)
    (minSnapshots : Nat) (extraArgs : List String) (user host : Option String)
    (root : String) : Nat → St → Outcome × St
  | 0, st => (Outcome.fuelOut, st)
  | Nat.succ fuel, st =>
    match rsync w env source dest debug extraArgs st with
    | (Except.ok _, st') => (Outcome.ok, st')
    | (Except.error (Err.noSpaceLeft _), st') =>
      match removeOldestSnapshot w root user host minSnapshots debug st' with
      | (Except.ok _, st'') =>
        snapshotLoop w env source dest debug minSnapshots extraArgs user host root fuel st''
      | (Except.error e, st'') => (Outcome.err e, st'')
    | (Except.error e, st') => (Outcome.err e, st')

/-- Embedding of `snapshot`: parse the destination once, run the
transfer/evict retry loop, then move the staging directory to its
timestamped name and update the `latest.snapshot` symlink.  The `date`
parameter is the value `_datetime()` produced at the start of the run. -/
def snapshotRun (w : World) (env : Env) (source dest : String) (debug : Bool)
    (minSnapshots : Nat) (extraArgs : List String) (date : String) (fuel : Nat)
    (st : St) : Outcome × St :=
  match parsePath env dest with
  | (user, host, snapshotsRoot) =>
    match snapshotLoop w env source dest debug minSnapshots extraArgs user host
        snapshotsRoot fuel st with
    | (Outcome.ok, st1) =>
      match moveIncompleteDir w snapshotsRoot date user host debug st1 with
      | (Except.ok _, st2) =>
        match updateLatestSymlink w date snapshotsRoot user host debug st2 with
        | (Except.ok _, st3) => (Outcome.ok, st3)
        | (Except.error e, st3) => (Outcome.err e, st3)
      | (Except.error e, st2) => (Outcome.err e, st2)
    | r => r

/-- Snapshot-name test following the spec's words, for comparison with the
code's `reMatchSnapshotName`: the name must be exactly of the form
`YYYY-MM-DDTHH_MM_SS.snapshot`, with a literal dot and nothing following. -/
def specMatchesSnapshotName (s : String) : Bool :=
  match s.data with
  | [y1, y2, y3, y4, c1, m1, m2, c2, d1, d2, c3, h1, h2, c4,
      n1, n2, c5, s1, s2, dot, r1, r2, r3, r4, r5, r6, r7, r8] =>
    y1.isDigit && y2.isDigit && y3.isDigit && y4.isDigit && c1 == '-' &&
    m1.isDigit && m2.isDigit && c2 == '-' && d1.isDigit && d2.isDigit &&
    c3 == 'T' && h1.isDigit && h2.isDigit && c4 == '_' &&
    n1.isDigit && n2.isDigit && c5 == '_' && s1.isDigit && s2.isDigit &&
    dot == '.' &&
    r1 == 's' && r2 == 'n' && r3 == 'a' && r4 == 'p' && r5 == 's' && r6 == 'h' &&
    r7 == 'o' && r8 == 't'
  | _ => false

/-- The snapshot lister as the spec describes it, for comparison with the
code's `lsSnapshots`: keep exactly the subdirectories whose name matches the
fixed pattern in full. -/
def specLsSnapshots (dest : String) (listing : List (String × Bool)) : List String :=
  sortStrings ((listing.filter (fun e => e.2 && specMatchesSnapshotName e.1)).map
    (fun e => pathJoin dest e.1))

/-! ### Helper lemmas -/

/-- Characters of a string appended: `String.append` is concatenation of the
underlying character lists. -/
theorem strData_append (a b : String) : (a ++ b).data = a.data ++ b.data := rfl

/-- Rebuilding a string from its own characters is the identity. -/
theorem strMk_data (s : String) : String.mk s.data = s := rfl


/-- A string extended with `/` ends with `/`. -/
theorem strEndsWith_concat_slash (s : String) : strEndsWith (s ++ "/") "/" = true := by
  have hd : ("/" : String).data = ['/'] := rfl
  simp [strEndsWith, strData_append, hd, List.isPrefixOf]

/-- Extending with one `/` a string that does not end with `/` cannot make it
end with `//`. -/
theorem strEndsWith_concat_two (s : String) (hs : strEndsWith s "/" = false) :
    strEndsWith (s ++ "/") "//" = false := by
  have hd : ("/" : String).data = ['/'] := rfl
  have hd2 : ("//" : String).data = ['/', '/'] := rfl
  simpa [strEndsWith, strData_append, hd, hd2, List.isPrefixOf] using hs

/-! ### C4: the transfer argument vector -/

/-- C4: for every source path ending in zero or one path separator, the
built transfer argument vector is exactly the fixed flags in order, then the
caller's extra flags in order, then `--dry-run` iff debug is set, then the
source with exactly one trailing separator, then the staging destination
`{user@host:}{snapshots_root}/incomplete.snapshot`; and that source
argument ends with exactly one trailing separator. -/
theorem transfer_command_exact (env : Env) (source dest : String) (debug : Bool)
    (extraArgs : List String) (hsrc : strEndsWith source "//" = false) :
    rsyncCmd env source dest debug extraArgs =
      ["rsync", "--archive", "--partial", "--partial-dir=partially_transferred_files",
        "--one-file-system", "--delete", "--delete-excluded", "--itemize-changes",
        "--link-dest=../latest.snapshot", "--human-readable", "--quiet", "--compress",
        "--fuzzy"] ++ extraArgs ++ (if debug then ["--dry-run"] else [])
      ++ [(if strEndsWith source "/" then source else source ++ "/")]
      ++ [(match (parsePath env dest).2.1 with
            | some h =>
              (match (parsePath env dest).1 with | some u => u ++ "@" | none => "") ++ h ++ ":"
            | none => "") ++ pathJoin (parsePath env dest).2.2 "incomplete.snapshot"]
    ∧ strEndsWith (if strEndsWith source "/" then source else source ++ "/") "/" = true
    ∧ strEndsWith (if strEndsWith source "/" then source else source ++ "/") "//" = false := by
  refine ⟨?_, ?_, ?_⟩
  · rcases hp : parsePath env dest with ⟨u, h, r⟩
    cases debug <;> simp [rsyncCmd, hp]
  · by_cases hs : strEndsWith source "/"
    · simp [hs]
    · simp [hs, strEndsWith_concat_slash]
  · by_cases hs : strEndsWith source "/"
    · simpa [hs] using hsrc
    · simp only [hs]

      exact strEndsWith_concat_two source (by simpa using hs)

/-- Witness for C4 at a concrete input. -/
theorem transfer_command_exact_witness :
    rsyncCmd ⟨"/cwd", "/home"⟩ "/src" "h:/snaps" true ["--exclude=x"] =
      ["rsync", "--archive", "--partial", "--partial-dir=partially_transferred_files",
        "--one-file-system", "--delete", "--delete-excluded", "--itemize-changes",
        "--link-dest=../latest.snapshot", "--human-readable", "--quiet", "--compress",
        "--fuzzy"] ++ ["--exclude=x"] ++ (if true then ["--dry-run"] else [])
      ++ [(if strEndsWith "/src" "/" then "/src" else "/src" ++ "/")]
      ++ [(match (parsePath ⟨"/cwd", "/home"⟩ "h:/snaps").2.1 with
            | some h =>
              (match (parsePath ⟨"/cwd", "/home"⟩ "h:/snaps").1 with
               | some u => u ++ "@" | none => "") ++ h ++ ":"
            | none => "") ++
          pathJoin (parsePath ⟨"/cwd", "/home"⟩ "h:/snaps").2.2 "incomplete.snapshot"]
    ∧ strEndsWith (if strEndsWith "/src" "/" then "/src" else "/src" ++ "/") "/" = true
    ∧ strEndsWith (if strEndsWith "/src" "/" then "/src" else "/src" ++ "/") "//" = false :=
  transfer_command_exact ⟨"/cwd", "/home"⟩ "/src" "h:/snaps" true ["--exclude=x"] (by decide)

/-! ### C8: the process runner -/

/-- C8 (amended): with debug off, the runner returns the captured combined
output on exit code zero; on non-zero exit it fails with a
`CalledProcessError` whose fields are the space-joined command text, the
captured output with a space and the exit code appended, and the exit code;
and a missing executable raises the distinct `NoSuchCommandError` carrying
the command text and the OS message, with no captured output. -/
theorem runner_behaviour (w : World) (root : String) (command : List String) (st : St)
    (out msg : String) (code : Int) :
    (w.exec command st.listing = ProcOut.ok out →
      run w root command false st =
        (Except.ok (some out),
          ⟨applyFx root command st.listing, st.trace ++ [command]⟩))
    ∧ (w.exec command st.listing = ProcOut.fail out code →
      run w root command false st =
        (Except.error
            (Err.calledProcess (joinWords command) (out ++ " " ++ toString code) code),
          ⟨st.listing, st.trace ++ [command]⟩))
    ∧ (w.exec command st.listing = ProcOut.notFound msg →
      run w root command false st =
        (Except.error (Err.noSuchCommand (joinWords command) msg),
          ⟨st.listing, st.trace ++ [command]⟩)) := by
  refine ⟨?_, ?_, ?_⟩ <;> intro h <;> simp [run, h]

/-- Witness for C8 at a concrete input. -/
theorem runner_behaviour_witness :
    (World.mk (fun _ _ => ProcOut.fail "boom" 3)).exec ["false"] (St.mk [] []).listing =
        ProcOut.fail "boom" 3
    ∧ run (World.mk (fun _ _ => ProcOut.fail "boom" 3)) "/r" ["false"] false ⟨[], []⟩ =
        (Except.error
            (Err.calledProcess (joinWords ["false"]) ("boom" ++ " " ++ toString (3 : Int)) 3),
          ⟨([] : List (String × Bool)), [["false"]]⟩) :=
  ⟨rfl,
    ((runner_behaviour (World.mk (fun _ _ => ProcOut.fail "boom" 3)) "/r" ["false"] ⟨[], []⟩
        "boom" "" 3).2.1) rfl⟩

/-- C8 counterexample to the claim as stated: on a non-zero exit the stored
output field is not the captured output itself — the exit code is appended
to it. -/
theorem runner_output_counterexample :
    (run (World.mk (fun _ _ => ProcOut.fail "boom" 3)) "/r" ["false"] false ⟨[], []⟩).1 =
      Except.error (Err.calledProcess "false" "boom 3" 3)
    ∧ (run (World.mk (fun _ _ => ProcOut.fail "boom" 3)) "/r" ["false"] false ⟨[], []⟩).1 ≠
      Except.error (Err.calledProcess "false" "boom" 3) := by
  constructor
  · rfl
  · intro h
    have h0 : (run (World.mk (fun _ _ => ProcOut.fail "boom" 3)) "/r" ["false"] false
          ⟨[], []⟩).1 = Except.error (Err.calledProcess "false" "boom 3" 3) := rfl
    rw [h0] at h
    injection h with h1
    injection h1 with h2 h3 h4
    exact absurd h3 (by decide)

/-- The transfer command never changes the modelled listing of the
snapshots root. -/
theorem applyFx_rsyncCmd (root : String) (env : Env) (source dest : String) (debug : Bool)
    (extraArgs : List String) (l : List (String × Bool)) :
    applyFx root (rsyncCmd env source dest debug extraArgs) l = l := by
  cases debug <;> rfl

/-! ### C9: a debug run attempts exactly one external command -/

/-- C9: with debug set and the (really executed) dry-run transfer
succeeding, the whole run succeeds, the executed-command trace grows by
exactly the one transfer command, and that command carries `--dry-run`; no
move, unlink or relink command is ever executed. -/
theorem debug_run_single_dryrun_transfer (w : World) (env : Env) (source dest : String)
    (minSnapshots : Nat) (extraArgs : List String) (date : String) (fuel : Nat) (st : St)
    (hok : ∃ o, w.exec (rsyncCmd env source dest true extraArgs) st.listing = ProcOut.ok o) :
    (snapshotRun w env source dest true minSnapshots extraArgs date (fuel + 1) st).1 =
        Outcome.ok
    ∧ (snapshotRun w env source dest true minSnapshots extraArgs date (fuel + 1) st).2.trace =
        st.trace ++ [rsyncCmd env source dest true extraArgs]
    ∧ "--dry-run" ∈ rsyncCmd env source dest true extraArgs := by
  obtain ⟨o, ho⟩ := hok
  rcases hp : parsePath env dest with ⟨u, h, r⟩
  refine ⟨?_, ?_, ?_⟩
  · simp [snapshotRun, hp, snapshotLoop, rsync, run, ho, moveIncompleteDir,
      updateLatestSymlink, rm, ln]
  · simp [snapshotRun, hp, snapshotLoop, rsync, run, ho, moveIncompleteDir,
      updateLatestSymlink, rm, ln]
  · simp [rsyncCmd, hp]

/-- Witness for C9 at a concrete input. -/
theorem debug_run_single_dryrun_transfer_witness :
    (snapshotRun (World.mk (fun _ _ => ProcOut.ok "")) ⟨"/cwd", "/home"⟩ "/src" "/snaps"
        true 3 [] "2025-01-01T00_00_00" (0 + 1) ⟨[], []⟩).1 = Outcome.ok
    ∧ (snapshotRun (World.mk (fun _ _ => ProcOut.ok "")) ⟨"/cwd", "/home"⟩ "/src" "/snaps"
        true 3 [] "2025-01-01T00_00_00" (0 + 1) ⟨[], []⟩).2.trace =
        (St.mk [] []).trace ++ [rsyncCmd ⟨"/cwd", "/home"⟩ "/src" "/snaps" true []]
    ∧ "--dry-run" ∈ rsyncCmd ⟨"/cwd", "/home"⟩ "/src" "/snaps" true [] :=
  debug_run_single_dryrun_transfer (World.mk (fun _ _ => ProcOut.ok "")) ⟨"/cwd", "/home"⟩
    "/src" "/snaps" 3 [] "2025-01-01T00_00_00" 0 ⟨[], []⟩ ⟨"", rfl⟩

/-! ### C5: a non-debug first-attempt success runs exactly four commands -/

/-- C5: with debug off, a transfer that succeeds on the first attempt is
followed by the move of the staging directory, the removal of the old
`latest.snapshot` link, and the creation of the new link — exactly these
four external commands, in this order, and the run succeeds. -/
theorem success_run_four_commands (w : World) (env : Env) (source dest : String)
    (minSnapshots : Nat) (extraArgs : List String) (date : String) (fuel : Nat) (st : St)
    (u h : Option String) (r : String) (hp : parsePath env dest = (u, h, r))
    (h1 : ∃ o, w.exec (rsyncCmd env source dest false extraArgs) st.listing = ProcOut.ok o)
    (h2 : ∀ l, ∃ o, w.exec (mvCmd r date u h) l = ProcOut.ok o)
    (h3 : ∀ l, ∃ o, w.exec (rmLatestCmd r u h) l = ProcOut.ok o)
    (h4 : ∀ l, ∃ o, w.exec (lnLatestCmd r date u h) l = ProcOut.ok o) :
    (snapshotRun w env source dest false minSnapshots extraArgs date (fuel + 1) st).1 =
        Outcome.ok
    ∧ (snapshotRun w env source dest false minSnapshots extraArgs date (fuel + 1) st).2.trace =
        st.trace ++ [rsyncCmd env source dest false extraArgs, mvCmd r date u h,
          rmLatestCmd r u h, lnLatestCmd r date u h] := by
  obtain ⟨o1, ho1⟩ := h1
  obtain ⟨o2, ho2⟩ := h2 (applyFx r (rsyncCmd env source dest false extraArgs) st.listing)
  obtain ⟨o3, ho3⟩ :=
    h3 (applyFx r (mvCmd r date u h)
      (applyFx r (rsyncCmd env source dest false extraArgs) st.listing))
  obtain ⟨o4, ho4⟩ :=
    h4 (applyFx r (rmLatestCmd r u h)
      (applyFx r (mvCmd r date u h)
        (applyFx r (rsyncCmd env source dest false extraArgs) st.listing)))
  simp only [rmLatestCmd] at ho3
  simp only [rmLatestCmd, lnLatestCmd] at ho4
  constructor
  · simp [snapshotRun, hp, snapshotLoop, rsync, run, ho1, moveIncompleteDir,
      updateLatestSymlink, rm, ln, ho2, ho3, ho4, rmLatestCmd, lnLatestCmd]
  · simp [snapshotRun, hp, snapshotLoop, rsync, run, ho1, moveIncompleteDir,
      updateLatestSymlink, rm, ln, ho2, ho3, ho4, rmLatestCmd, lnLatestCmd]

/-- Witness for C5 at a concrete input. -/
theorem success_run_four_commands_witness :
    (snapshotRun (World.mk (fun _ _ => ProcOut.ok "")) ⟨"/cwd", "/home"⟩ "/src" "/snaps"
        false 3 [] "2025-01-01T00_00_00" (0 + 1) ⟨[], []⟩).1 = Outcome.ok
    ∧ (snapshotRun (World.mk (fun _ _ => ProcOut.ok "")) ⟨"/cwd", "/home"⟩ "/src" "/snaps"
        false 3 [] "2025-01-01T00_00_00" (0 + 1) ⟨[], []⟩).2.trace =
        (St.mk [] []).trace ++
          [rsyncCmd ⟨"/cwd", "/home"⟩ "/src" "/snaps" false [],
            mvCmd "/snaps" "2025-01-01T00_00_00" none none,
            rmLatestCmd "/snaps" none none,
            lnLatestCmd "/snaps" "2025-01-01T00_00_00" none none] :=
  success_run_four_commands (World.mk (fun _ _ => ProcOut.ok "")) ⟨"/cwd", "/home"⟩
    "/src" "/snaps" 3 [] "2025-01-01T00_00_00" 0 ⟨[], []⟩ none none "/snaps" (by decide)
    ⟨"", rfl⟩ (fun _ => ⟨"", rfl⟩) (fun _ => ⟨"", rfl⟩) (fun _ => ⟨"", rfl⟩)

/-! ### C1: classification and consumption of the out-of-space failure -/

/-- The process runner only ever raises `CalledProcessError` or
`NoSuchCommandError`. -/
theorem run_error_shape (w : World) (root : String) (c : List String) (dbg : Bool)
    (st : St) (e : Err) (he : (run w root c dbg st).1 = Except.error e) :
    (∃ cmd o k, e = Err.calledProcess cmd o k) ∨ ∃ cmd m, e = Err.noSuchCommand cmd m := by
  by_cases hd : dbg
  · simp [run, hd] at he
  · rcases hx : w.exec c st.listing with o | ⟨o, k⟩ | m <;>
      simp [run, hd, hx] at he
    · exact Or.inl ⟨_, _, _, he.symm⟩
    · exact Or.inr ⟨_, _, he.symm⟩

/-- Eviction only ever raises `NoMoreSnapshotsToRemoveError` or a process
runner error. -/
theorem removeOldest_error_shape (w : World) (dest : String) (user host : Option String)
    (minSnapshots : Nat) (dbg : Bool) (st : St) (e : Err)
    (he : (removeOldestSnapshot w dest user host minSnapshots dbg st).1 = Except.error e) :
    e = Err.noMoreSnapshots ∨ (∃ cmd o k, e = Err.calledProcess cmd o k) ∨
      ∃ cmd m, e = Err.noSuchCommand cmd m := by
  by_cases h : (lsSnapshots dest st.listing).length ≤ minSnapshots
  · simp [removeOldestSnapshot, h] at he
    exact Or.inl he.symm
  · simp only [removeOldestSnapshot, h, dif_neg, not_false_iff] at he
    rcases hr : rm w dest ((lsSnapshots dest st.listing).head (by
        intro hnil
        exact h (by simp [hnil]))) user host true dbg st with ⟨res, st'⟩
    rw [hr] at he
    cases res with
    | ok _ => simp at he
    | error e' =>
      simp at he
      subst he
      exact Or.inr (run_error_shape w dest _ dbg st e' (by simp [rm] at hr; exact congrArg Prod.fst hr))

/-- The retry loop never returns a `NoSpaceLeftOnDeviceError`: that error is
always either consumed by eviction or replaced by the eviction's own
error. -/
theorem loop_never_noSpace (w : World) (env : Env) (source dest : String) (debug : Bool)
    (minSnapshots : Nat) (extraArgs : List String) (user host : Option String)
    (root : String) :
    ∀ fuel st o,
      (snapshotLoop w env source dest debug minSnapshots extraArgs user host root
          fuel st).1 ≠ Outcome.err (Err.noSpaceLeft o) := by
  intro fuel
  induction fuel with
  | zero => intro st o; simp [snapshotLoop]
  | succ n ih =>
    intro st o
    rcases hr : rsync w env source dest debug extraArgs st with ⟨res, st'⟩
    cases res with
    | ok _ => simp [snapshotLoop, hr]
    | error e =>
      cases e with
      | noSpaceLeft o' =>
        simp only [snapshotLoop, hr]
        rcases hrm : removeOldestSnapshot w root user host minSnapshots debug st'
          with ⟨res', st''⟩
        cases res' with
        | ok _ => exact ih st'' o
        | error e' =>
          rcases removeOldest_error_shape w root user host minSnapshots debug st' e'
              (by rw [hrm]) with h1 | ⟨c, o2, k, h1⟩ | ⟨c, m, h1⟩ <;> subst h1 <;> simp
      | calledProcess c o2 k => simp [snapshotLoop, hr]
      | noSuchCommand c m => simp [snapshotLoop, hr]
      | noMoreSnapshots => simp [snapshotLoop, hr]

/-- A whole run never surfaces a `NoSpaceLeftOnDeviceError` to the
caller. -/
theorem snapshotRun_never_noSpace (w : World) (env : Env) (source dest : String)
    (debug : Bool) (minSnapshots : Nat) (extraArgs : List String) (date : String)
    (fuel : Nat) (st : St) (o : String) :
    (snapshotRun w env source dest debug minSnapshots extraArgs date fuel st).1 ≠
      Outcome.err (Err.noSpaceLeft o) := by
  rcases hp : parsePath env dest with ⟨u, h, r⟩
  simp only [snapshotRun, hp]
  rcases hl : snapshotLoop w env source dest debug minSnapshots extraArgs u h r fuel st
    with ⟨res, st1⟩
  cases res with
  | ok =>
    rcases hm : moveIncompleteDir w r date u h debug st1 with ⟨res2, st2⟩
    cases res2 with
    | ok _ =>
      simp only [updateLatestSymlink]
      rcases hrm : rm w r (pathJoin r "latest.snapshot") u h false debug st2
        with ⟨res3, st3⟩
      cases res3 with
      | ok _ =>
        rcases hln : ln w r (date ++ ".snapshot") (pathJoin r "latest.snapshot") u h
            debug st3 with ⟨res4, st4⟩
        cases res4 with
        | ok _ => simp [hm, hrm, hln]
        | error e =>
          rcases run_error_shape w r _ debug st3 e (by simp [ln] at hln; exact congrArg Prod.fst hln)
            with ⟨c, o2, k, h1⟩ | ⟨c, m, h1⟩ <;> subst h1 <;> simp [hm, hrm, hln]
      | error e =>
        rcases run_error_shape w r _ debug st2 e (by simp [rm] at hrm; exact congrArg Prod.fst hrm)
          with ⟨c, o2, k, h1⟩ | ⟨c, m, h1⟩ <;> subst h1 <;> simp [hm, hrm]
    | error e =>
      rcases run_error_shape w r _ debug st1 e
          (by simp [moveIncompleteDir] at hm; exact congrArg Prod.fst hm)
        with ⟨c, o2, k, h1⟩ | ⟨c, m, h1⟩ <;> subst h1 <;> simp [hm]
  | err e =>
    intro hc
    simp at hc
    exact loop_never_noSpace w env source dest debug minSnapshots extraArgs u h r fuel st o
      (by rw [hl]; simp [hc])
  | fuelOut => simp

/-- C1: a failed transfer raises `NoSpaceLeftOnDeviceError` exactly when the
exit code is 11 and the stored output (the captured output with the exit
code appended) contains "No space left on device"; every other transfer
failure makes the retry loop propagate the `CalledProcessError` fatally with
no eviction command and no retry; a space failure whose eviction succeeds
makes the loop retry the transfer; and no run ever surfaces
`NoSpaceLeftOnDeviceError` to the caller. -/
theorem nospace_classification_and_retry (w : World) (env : Env) (source dest : String)
    (debug : Bool) (extraArgs : List String) (st : St) (out : String) (code : Int)
    (hf : w.exec (rsyncCmd env source dest debug extraArgs) st.listing =
      ProcOut.fail out code) :
    ((rsync w env source dest debug extraArgs st).1 =
        Except.error (Err.noSpaceLeft (out ++ " " ++ toString code)) ↔
      code = 11 ∧
        strHasSub (out ++ " " ++ toString code) "No space left on device" = true)
    ∧ (¬(code = 11 ∧
          strHasSub (out ++ " " ++ toString code) "No space left on device" = true) →
        ∀ minSnapshots user host root fuel,
          snapshotLoop w env source dest debug minSnapshots extraArgs user host root
              (fuel + 1) st =
            (Outcome.err (Err.calledProcess
                (joinWords (rsyncCmd env source dest debug extraArgs))
                (out ++ " " ++ toString code) code),
              ⟨st.listing, st.trace ++ [rsyncCmd env source dest debug extraArgs]⟩))
    ∧ ((code = 11 ∧
          strHasSub (out ++ " " ++ toString code) "No space left on device" = true) →
        ∀ minSnapshots user host root fuel,
          (removeOldestSnapshot w root user host minSnapshots debug
              ⟨st.listing, st.trace ++ [rsyncCmd env source dest debug extraArgs]⟩).1 =
            Except.ok () →
          snapshotLoop w env source dest debug minSnapshots extraArgs user host root
              (fuel + 1) st =
            snapshotLoop w env source dest debug minSnapshots extraArgs user host root
              fuel
              (removeOldestSnapshot w root user host minSnapshots debug
                ⟨st.listing, st.trace ++ [rsyncCmd env source dest debug extraArgs]⟩).2)
    ∧ (∀ minSnapshots date fuel (st' : St) (o : String),
        (snapshotRun w env source dest debug minSnapshots extraArgs date fuel st').1 ≠
          Outcome.err (Err.noSpaceLeft o)) := by
  have hrun : rsync w env source dest debug extraArgs st =
      (if code == 11 &&
            strHasSub (out ++ " " ++ toString code) "No space left on device" then
          Except.error (Err.noSpaceLeft (out ++ " " ++ toString code))
        else
          Except.error (Err.calledProcess
            (joinWords (rsyncCmd env source dest debug extraArgs))
            (out ++ " " ++ toString code) code),
        ⟨st.listing, st.trace ++ [rsyncCmd env source dest debug extraArgs]⟩) := by
    simp only [rsync, run, Bool.false_eq_true, if_false, hf]
    split <;> simp_all
  refine ⟨?_, ?_, ?_, ?_⟩
  · by_cases hc : code = 11 ∧
        strHasSub (out ++ " " ++ toString code) "No space left on device" = true
    · simp [hrun, hc]
    · have hcond : (code == 11 &&
          strHasSub (out ++ " " ++ toString code) "No space left on device") = false := by
        rcases Bool.eq_false_or_eq_true (code == 11 &&
            strHasSub (out ++ " " ++ toString code) "No space left on device") with hb | hb
        · rcases Bool.and_eq_true_iff.mp hb with ⟨hb1, hb2⟩
          exact absurd ⟨beq_iff_eq.mp hb1, hb2⟩ hc
        · exact hb
      simp [hrun, hcond, hc]
  · intro hc minSnapshots user host root fuel
    have hcond : (code == 11 &&
        strHasSub (out ++ " " ++ toString code) "No space left on device") = false := by
      rcases Bool.eq_false_or_eq_true (code == 11 &&
          strHasSub (out ++ " " ++ toString code) "No space left on device") with hb | hb
      · rcases Bool.and_eq_true_iff.mp hb with ⟨hb1, hb2⟩
        exact absurd ⟨beq_iff_eq.mp hb1, hb2⟩ hc
      · exact hb
    simp [snapshotLoop, hrun, hcond]
  · intro hc minSnapshots user host root fuel hev
    have hcond : (code == 11 &&
        strHasSub (out ++ " " ++ toString code) "No space left on device") = true := by
      obtain ⟨hc1, hc2⟩ := hc
      subst hc1
      simp [hc2]
    rcases hrm : removeOldestSnapshot w root user host minSnapshots debug
        ⟨st.listing, st.trace ++ [rsyncCmd env source dest debug extraArgs]⟩
      with ⟨res, st''⟩
    rw [hrm] at hev
    cases res with
    | error e => simp at hev
    | ok u => simp [snapshotLoop, hrun, hcond, hrm]
  · intro minSnapshots date fuel st' o
    exact snapshotRun_never_noSpace w env source dest debug minSnapshots extraArgs date
      fuel st' o

/-- Witness for C1 at a concrete input: the classification test, applied at
a concrete failing world. -/
theorem nospace_classification_and_retry_witness :
    (rsync (World.mk (fun _ _ => ProcOut.fail "rsync: No space left on device (28)" 11))
          ⟨"/cwd", "/home"⟩ "/src" "/snaps" false [] ⟨[], []⟩).1 =
        Except.error (Err.noSpaceLeft
          ("rsync: No space left on device (28)" ++ " " ++ toString (11 : Int))) ↔
      (11 : Int) = 11 ∧
        strHasSub ("rsync: No space left on device (28)" ++ " " ++ toString (11 : Int))
          "No space left on device" = true :=
  (nospace_classification_and_retry
    (World.mk (fun _ _ => ProcOut.fail "rsync: No space left on device (28)" 11))
    ⟨"/cwd", "/home"⟩ "/src" "/snaps" false [] ⟨[], []⟩
    "rsync: No space left on device (28)" 11 rfl).1

/-! ### C3: commit and relink -/

/-- C3 (amended): a run that reports success with debug off has fully
committed and relinked — its executed-command trace ends with the move of
the staging directory, the removal of the old `latest.snapshot` link and
the creation of the new one, in this order. -/
theorem commit_and_relink_on_success (w : World) (env : Env) (source dest : String)
    (minSnapshots : Nat) (extraArgs : List String) (date : String) (fuel : Nat) (st : St)
    (u h : Option String) (r : String) (hp : parsePath env dest = (u, h, r))
    (hok : (snapshotRun w env source dest false minSnapshots extraArgs date fuel st).1 =
      Outcome.ok) :
    ∃ t, (snapshotRun w env source dest false minSnapshots extraArgs date fuel st).2.trace =
      t ++ [mvCmd r date u h, rmLatestCmd r u h, lnLatestCmd r date u h] := by
  simp only [snapshotRun, hp] at hok ⊢
  rcases hl : snapshotLoop w env source dest false minSnapshots extraArgs u h r fuel st
    with ⟨res, st1⟩
  rw [hl] at hok
  cases res with
  | err e => simp at hok
  | fuelOut => simp at hok
  | ok =>
    simp only [moveIncompleteDir, run, Bool.false_eq_true, if_false,
      updateLatestSymlink, rm, ln] at hok ⊢
    rcases hx2 : w.exec (mvCmd r date u h) st1.listing with o2 | ⟨o2, k2⟩ | m2 <;>
      rw [hx2] at hok
    case fail => simp at hok
    case notFound => simp at hok
    case ok =>
      dsimp only at hok
      rcases hx3 : w.exec (wrapInSsh ["rm", "-f", pathJoin r "latest.snapshot"] u h)
          (applyFx r (mvCmd r date u h) st1.listing) with o3 | ⟨o3, k3⟩ | m3 <;>
        rw [hx3] at hok
      case fail => simp at hok
      case notFound => simp at hok
      case ok =>
        dsimp only at hok
        rcases hx4 : w.exec
            (wrapInSsh ["ln", "-s", date ++ ".snapshot", pathJoin r "latest.snapshot"] u h)
            (applyFx r (wrapInSsh ["rm", "-f", pathJoin r "latest.snapshot"] u h)
              (applyFx r (mvCmd r date u h) st1.listing))
          with o4 | ⟨o4, k4⟩ | m4 <;> rw [hx4] at hok
        case fail => simp at hok
        case notFound => simp at hok
        case ok =>
          refine ⟨st1.trace, ?_⟩
          simp [hx2, hx3, hx4, rmLatestCmd, lnLatestCmd]

/-- Witness for the amended C3 at a concrete input. -/
theorem commit_and_relink_on_success_witness :
    ∃ t, (snapshotRun (World.mk (fun _ _ => ProcOut.ok "")) ⟨"/cwd", "/home"⟩ "/src"
        "/snaps" false 3 [] "2025-01-01T00_00_00" 1 ⟨[], []⟩).2.trace =
      t ++ [mvCmd "/snaps" "2025-01-01T00_00_00" none none, rmLatestCmd "/snaps" none none,
        lnLatestCmd "/snaps" "2025-01-01T00_00_00" none none] :=
  commit_and_relink_on_success (World.mk (fun _ _ => ProcOut.ok "")) ⟨"/cwd", "/home"⟩
    "/src" "/snaps" 3 [] "2025-01-01T00_00_00" 1 ⟨[], []⟩ none none "/snaps" (by decide)
    (by decide)

/-- C3 counterexample to the claim as stated: when the relink command fails
after the move succeeded, the run ends with a committed timestamped
snapshot in the listing but no `latest.snapshot` entry at all — a committed
snapshot with a missing latest pointer. -/
theorem commit_without_relink_counterexample :
    (snapshotRun
        (World.mk (fun c _ => if c.headD "" = "ln" then ProcOut.fail "boom" 1
          else ProcOut.ok ""))
        ⟨"/cwd", "/home"⟩ "/src" "/snaps" false 3 [] "2025-01-01T00_00_00" 1
        ⟨[("latest.snapshot", false)], []⟩).1 =
      Outcome.err (Err.calledProcess "ln -s 2025-01-01T00_00_00.snapshot /snaps/latest.snapshot"
        "boom 1" 1)
    ∧ ("2025-01-01T00_00_00.snapshot", true) ∈
        (snapshotRun
          (World.mk (fun c _ => if c.headD "" = "ln" then ProcOut.fail "boom" 1
            else ProcOut.ok ""))
          ⟨"/cwd", "/home"⟩ "/src" "/snaps" false 3 [] "2025-01-01T00_00_00" 1
          ⟨[("latest.snapshot", false)], []⟩).2.listing
    ∧ "latest.snapshot" ∉
        ((snapshotRun
          (World.mk (fun c _ => if c.headD "" = "ln" then ProcOut.fail "boom" 1
            else ProcOut.ok ""))
          ⟨"/cwd", "/home"⟩ "/src" "/snaps" false 3 [] "2025-01-01T00_00_00" 1
          ⟨[("latest.snapshot", false)], []⟩).2.listing).map Prod.fst := by
  decide

/-! ### C2: the eviction policy -/

/-- String concatenation is left-cancellative. -/
theorem strAppend_left_cancel (c a b : String) (h : c ++ a = c ++ b) : a = b := by
  have hd := congrArg String.data h
  rw [strData_append, strData_append] at hd
  have h2 := List.append_cancel_left hd
  calc a = String.mk a.data := (strMk_data a).symm
    _ = String.mk b.data := by rw [h2]
    _ = b := strMk_data b

/-- Joining two relative names onto the same root is injective. -/
theorem pathJoin_right_inj (root a b : String) (ha : strStartsWith a "/" = false)
    (hb : strStartsWith b "/" = false) (h : pathJoin root a = pathJoin root b) : a = b := by
  simp only [pathJoin, ha, hb, Bool.false_eq_true, if_false] at h
  by_cases hr : root = "" ∨ strEndsWith root "/" = true
  · rw [if_pos hr, if_pos hr] at h
    exact strAppend_left_cancel root a b h
  · rw [if_neg hr, if_neg hr] at h
    exact strAppend_left_cancel (root ++ "/") a b h

/-- The filesystem effect of the recursive-remove command built by the
eviction step: the entries joining to the removed path disappear. -/
theorem applyFx_rm_dir (root p : String) (user host : Option String)
    (l : List (String × Bool)) :
    applyFx root (wrapInSsh ["rm", "-r", "-f", p] user host) l =
      l.filter (fun e => !(pathJoin root e.1 == p)) := by
  cases host with
  | none => rfl
  | some hh =>
    by_cases hz : hh = ""
    · simp [wrapInSsh, hz, applyFx, stripSsh]
    · simp [wrapInSsh, hz, applyFx, stripSsh]

/-- Unfolding of `_rm` for a directory: the built command is
`rm -r -f path`. -/
theorem rm_dir_eq (w : World) (root p : String) (user host : Option String) (dbg : Bool)
    (st : St) :
    rm w root p user host true dbg st =
      run w root (wrapInSsh ["rm", "-r", "-f", p] user host) dbg st := rfl

/-- The head of a nonempty list equals its defaulted head. -/
theorem head_eq_headD (l : List String) (h : l ≠ []) : l.head h = l.headD "" := by
  cases l with
  | nil => exact absurd rfl h
  | cons a t => rfl

/-- Membership in an insertion step. -/
theorem mem_insertSorted (x y : String) (l : List String) :
    y ∈ insertSorted x l ↔ y = x ∨ y ∈ l := by
  induction l with
  | nil => simp [insertSorted]
  | cons a t ih =>
    by_cases h : x ≤ a
    · simp [insertSorted, h]
    · simp only [insertSorted, h, if_false, List.mem_cons, ih]
      tauto

/-- An insertion step grows the length by one. -/
theorem length_insertSorted (x : String) (l : List String) :
    (insertSorted x l).length = l.length + 1 := by
  induction l with
  | nil => rfl
  | cons a t ih =>
    by_cases h : x ≤ a
    · simp [insertSorted, h]
    · simp [insertSorted, h, ih]

/-- An insertion step preserves ascending order. -/
theorem sorted_insertSorted (x : String) (l : List String)
    (h : l.Pairwise (· ≤ ·)) : (insertSorted x l).Pairwise (· ≤ ·) := by
  induction l with
  | nil => simp [insertSorted]
  | cons a t ih =>
    rcases List.pairwise_cons.mp h with ⟨ha, ht⟩
    by_cases hx : x ≤ a
    · rw [show insertSorted x (a :: t) =
          if x ≤ a then x :: a :: t else a :: insertSorted x t from rfl, if_pos hx]
      refine List.pairwise_cons.mpr ⟨?_, h⟩
      intro b hb
      rcases List.mem_cons.mp hb with hb | hb
      · exact hb ▸ hx
      · exact le_trans hx (ha b hb)
    · rw [show insertSorted x (a :: t) =
          if x ≤ a then x :: a :: t else a :: insertSorted x t from rfl, if_neg hx]
      refine List.pairwise_cons.mpr ⟨?_, ih ht⟩
      intro b hb
      rcases (mem_insertSorted x b t).mp hb with hb | hb
      · exact hb ▸ le_of_not_le hx
      · exact ha b hb

/-- The sort model permutes its input. -/
theorem sortStrings_perm (l : List String) : List.Perm (sortStrings l) l := by
  induction l with
  | nil => rfl
  | cons a t ih =>
    have hstep : ∀ (x : String) (m : List String), List.Perm (insertSorted x m) (x :: m) := by
      intro x m
      induction m with
      | nil => rfl
      | cons b u ihm =>
        by_cases h : x ≤ b
        · simp [insertSorted, h]
        · simp only [insertSorted, h, if_false]
          exact (List.Perm.cons b ihm).trans (List.Perm.swap x b u)
    exact (hstep a (sortStrings t)).trans (List.Perm.cons a ih)

/-- Membership in the sorted list. -/
theorem mem_sortStrings (x : String) (l : List String) :
    x ∈ sortStrings l ↔ x ∈ l := (sortStrings_perm l).mem_iff

/-- The sorted list has the input's length. -/
theorem length_sortStrings (l : List String) :
    (sortStrings l).length = l.length := (sortStrings_perm l).length_eq

/-- The sort model produces an ascending list. -/
theorem sorted_sortStrings (l : List String) :
    (sortStrings l).Pairwise (· ≤ ·) := by
  induction l with
  | nil => simp [sortStrings]
  | cons a t ih => exact sorted_insertSorted a (sortStrings t) ih

/-- Membership in the snapshot list after deleting one snapshot path:
exactly the old members other than the deleted path remain. -/
theorem lsSnapshots_filter_ne (dest p : String) (l : List (String × Bool)) (x : String) :
    x ∈ lsSnapshots dest (l.filter (fun e => !(pathJoin dest e.1 == p))) ↔
      x ∈ lsSnapshots dest l ∧ x ≠ p := by
  simp only [lsSnapshots, mem_sortStrings, List.mem_map, List.mem_filter,
    Bool.and_eq_true, Bool.not_eq_true', beq_eq_false_iff_ne]
  constructor
  · rintro ⟨e, ⟨⟨⟨he, hne⟩, hP⟩, hx⟩⟩
    exact ⟨⟨e, ⟨⟨he, hP⟩, hx⟩⟩, hx ▸ hne⟩
  · rintro ⟨⟨e, ⟨⟨he, hP⟩, hx⟩⟩, hnx⟩
    exact ⟨e, ⟨⟨⟨he, hx ▸ hnx⟩, hP⟩, hx⟩⟩

/-- Deleting one snapshot path from a listing with distinct, relative names
shrinks the snapshot list by exactly one. -/
theorem lsSnapshots_filter_length (dest p : String) (l : List (String × Bool))
    (hnodup : (l.map Prod.fst).Nodup)
    (hclean : ∀ e ∈ l, strStartsWith e.1 "/" = false)
    (hmem : p ∈ lsSnapshots dest l) :
    (lsSnapshots dest (l.filter (fun e => !(pathJoin dest e.1 == p)))).length =
      (lsSnapshots dest l).length - 1 := by
  have hl : l.Nodup := List.Nodup.of_map Prod.fst hnodup
  have hLnd : (l.filter (fun e => e.2 && reMatchSnapshotName e.1)).Nodup :=
    List.Nodup.filter _ hl
  have hinj : ∀ x ∈ l.filter (fun e => e.2 && reMatchSnapshotName e.1),
      ∀ y ∈ l.filter (fun e => e.2 && reMatchSnapshotName e.1),
      pathJoin dest x.1 = pathJoin dest y.1 → x = y := by
    intro x hx y hy hxy
    have hx' := (List.mem_filter.mp hx).1
    have hy' := (List.mem_filter.mp hy).1
    exact List.inj_on_of_nodup_map hnodup hx' hy'
      (pathJoin_right_inj dest x.1 y.1 (hclean x hx') (hclean y hy') hxy)
  have hJ : ((l.filter (fun e => e.2 && reMatchSnapshotName e.1)).map
      (fun e => pathJoin dest e.1)).Nodup := List.Nodup.map_on hinj hLnd
  have hpJ : p ∈ (l.filter (fun e => e.2 && reMatchSnapshotName e.1)).map
      (fun e => pathJoin dest e.1) := by
    simpa [lsSnapshots, mem_sortStrings] using hmem
  have hlists : ((l.filter (fun e => !(pathJoin dest e.1 == p))).filter
        (fun e => e.2 && reMatchSnapshotName e.1)).map (fun e => pathJoin dest e.1) =
      ((l.filter (fun e => e.2 && reMatchSnapshotName e.1)).map
        (fun e => pathJoin dest e.1)).filter (fun x => x != p) := by
    rw [List.filter_map]
    congr 1
    rw [List.filter_filter, List.filter_filter]
    exact List.filter_congr (fun e _ => by
      simp only [Function.comp_apply]
      rw [Bool.and_comm]
      rfl)
  rw [lsSnapshots, length_sortStrings, hlists]
  rw [show ((l.filter (fun e => e.2 && reMatchSnapshotName e.1)).map
      (fun e => pathJoin dest e.1)).filter (fun x => x != p) =
      ((l.filter (fun e => e.2 && reMatchSnapshotName e.1)).map
        (fun e => pathJoin dest e.1)).erase p from (List.Nodup.erase_eq_filter hJ p).symm]
  rw [List.length_erase_of_mem hpJ]
  rw [lsSnapshots, length_sortStrings]

/-- C2: eviction with no more than `minSnapshots` listed snapshots fails
with `NoMoreSnapshotsToRemoveError` and performs zero deletions (the state
is unchanged and no command runs); with more than `minSnapshots` snapshots
(and the remove command succeeding, over a listing with distinct relative
names) it executes exactly one remove command, deleting exactly the single
oldest snapshot, and the resulting snapshot count is one less and still at
least `minSnapshots`. -/
theorem eviction_policy (w : World) (dest : String) (user host : Option String)
    (minSnapshots : Nat) (st : St) :
    ((lsSnapshots dest st.listing).length ≤ minSnapshots →
      removeOldestSnapshot w dest user host minSnapshots false st =
        (Except.error Err.noMoreSnapshots, st))
    ∧ (minSnapshots < (lsSnapshots dest st.listing).length →
      (∃ o, w.exec (wrapInSsh ["rm", "-r", "-f", (lsSnapshots dest st.listing).headD ""]
          user host) st.listing = ProcOut.ok o) →
      removeOldestSnapshot w dest user host minSnapshots false st =
        (Except.ok (),
          ⟨st.listing.filter
              (fun e => !(pathJoin dest e.1 == (lsSnapshots dest st.listing).headD "")),
            st.trace ++ [wrapInSsh
              ["rm", "-r", "-f", (lsSnapshots dest st.listing).headD ""] user host]⟩))
    ∧ (∀ x, x ∈ lsSnapshots dest (st.listing.filter
          (fun e => !(pathJoin dest e.1 == (lsSnapshots dest st.listing).headD ""))) ↔
        x ∈ lsSnapshots dest st.listing ∧ x ≠ (lsSnapshots dest st.listing).headD "")
    ∧ (minSnapshots < (lsSnapshots dest st.listing).length →
      (st.listing.map Prod.fst).Nodup →
      (∀ e ∈ st.listing, strStartsWith e.1 "/" = false) →
      (lsSnapshots dest (st.listing.filter
          (fun e => !(pathJoin dest e.1 == (lsSnapshots dest st.listing).headD "")))).length =
        (lsSnapshots dest st.listing).length - 1
      ∧ minSnapshots ≤ (lsSnapshots dest (st.listing.filter
          (fun e => !(pathJoin dest e.1 ==
            (lsSnapshots dest st.listing).headD "")))).length) := by
  refine ⟨?_, ?_, ?_, ?_⟩
  · intro hle
    simp [removeOldestSnapshot, hle]
  · intro hgt hexec
    obtain ⟨o, ho⟩ := hexec
    have hne : lsSnapshots dest st.listing ≠ [] := by
      intro hnil
      rw [hnil] at hgt
      exact absurd hgt (by simp)
    have hnle : ¬ (lsSnapshots dest st.listing).length ≤ minSnapshots :=
      not_le.mpr hgt
    simp only [removeOldestSnapshot, hnle, dite_false, rm_dir_eq, run,
      Bool.false_eq_true, if_false, head_eq_headD _ hne]
    rw [ho]
    simp [applyFx_rm_dir]
  · intro x
    exact lsSnapshots_filter_ne dest ((lsSnapshots dest st.listing).headD "")
      st.listing x
  · intro hgt hnodup hclean
    have hne : lsSnapshots dest st.listing ≠ [] := by
      intro hnil
      rw [hnil] at hgt
      exact absurd hgt (by simp)
    have hmem : (lsSnapshots dest st.listing).headD "" ∈ lsSnapshots dest st.listing := by
      rw [← head_eq_headD _ hne]
      exact List.head_mem hne
    have hlen := lsSnapshots_filter_length dest ((lsSnapshots dest st.listing).headD "")
      st.listing hnodup hclean hmem
    exact ⟨hlen, by omega⟩

/-- Witness for C2 at a concrete input: both the refusal branch and the
removal branch, at concrete listings. -/
theorem eviction_policy_witness :
    (removeOldestSnapshot (World.mk (fun _ _ => ProcOut.ok "")) "/snaps" none none 3 false
        ⟨[("2021-01-01T00_00_00.snapshot", true)], []⟩ =
      (Except.error Err.noMoreSnapshots, ⟨[("2021-01-01T00_00_00.snapshot", true)], []⟩))
    ∧ (removeOldestSnapshot (World.mk (fun _ _ => ProcOut.ok "")) "/snaps" none none 0 false
        ⟨[("2021-01-01T00_00_00.snapshot", true)], []⟩ =
      (Except.ok (),
        ⟨([("2021-01-01T00_00_00.snapshot", true)] : List (String × Bool)).filter
            (fun e => !(pathJoin "/snaps" e.1 ==
              (lsSnapshots "/snaps" [("2021-01-01T00_00_00.snapshot", true)]).headD "")),
          [] ++ [wrapInSsh ["rm", "-r", "-f",
            (lsSnapshots "/snaps" [("2021-01-01T00_00_00.snapshot", true)]).headD ""]
            none none]⟩)) :=
  ⟨(eviction_policy (World.mk (fun _ _ => ProcOut.ok "")) "/snaps" none none 3
      ⟨[("2021-01-01T00_00_00.snapshot", true)], []⟩).1 (by decide),
    ((eviction_policy (World.mk (fun _ _ => ProcOut.ok "")) "/snaps" none none 0
      ⟨[("2021-01-01T00_00_00.snapshot", true)], []⟩).2.1 (by decide) ⟨"", rfl⟩)⟩

/-! ### C6: the snapshot lister -/

/-- C6 (amended): the lister returns exactly the immediate subdirectories
whose name passes the code's prefix-anchored regex test (digits in the
timestamp positions, any non-newline character where the pattern has the
unescaped dot, the literal `snapshot` after it, and anything at all after
that), joined to the root, in ascending order. -/
theorem snapshot_lister_behaviour (root : String) (l : List (String × Bool)) :
    (∀ x, x ∈ lsSnapshots root l ↔
      ∃ n, (n, true) ∈ l ∧ reMatchSnapshotName n = true ∧ x = pathJoin root n)
    ∧ (lsSnapshots root l).Pairwise (· ≤ ·)
    ∧ reMatchSnapshotName "incomplete.snapshot" = false
    ∧ reMatchSnapshotName "latest.snapshot" = false := by
  refine ⟨?_, sorted_sortStrings _, by decide, by decide⟩
  intro x
  simp only [lsSnapshots, mem_sortStrings, List.mem_map, List.mem_filter,
    Bool.and_eq_true]
  constructor
  · rintro ⟨⟨n, b⟩, ⟨hmem, hb, hm⟩, hx⟩
    dsimp only at hb hm hx
    subst hb
    exact ⟨n, hmem, hm, hx.symm⟩
  · rintro ⟨n, hmem, hm, hx⟩
    exact ⟨(n, true), ⟨hmem, rfl, hm⟩, hx.symm⟩

/-- C6 counterexample to the claim as stated: a directory name that merely
extends (and approximates, with `X` in place of the dot) the fixed pattern
is kept by the code, although it does not match the fixed pattern
`YYYY-MM-DDTHH_MM_SS.snapshot`, so the returned list is not the list of
exact pattern matches. -/
theorem snapshot_lister_counterexample :
    lsSnapshots "/b" [("1111-11-11T11_11_11Xsnapshotfoo", true)] =
      ["/b/1111-11-11T11_11_11Xsnapshotfoo"]
    ∧ specMatchesSnapshotName "1111-11-11T11_11_11Xsnapshotfoo" = false
    ∧ specLsSnapshots "/b" [("1111-11-11T11_11_11Xsnapshotfoo", true)] = []
    ∧ lsSnapshots "/b" [("1111-11-11T11_11_11Xsnapshotfoo", true)] ≠
        specLsSnapshots "/b" [("1111-11-11T11_11_11Xsnapshotfoo", true)] := by
  refine ⟨by decide, by decide, by decide, ?_⟩
  intro hcontra
  have h1 : lsSnapshots "/b" [("1111-11-11T11_11_11Xsnapshotfoo", true)] =
      ["/b/1111-11-11T11_11_11Xsnapshotfoo"] := by decide
  have h2 : specLsSnapshots "/b" [("1111-11-11T11_11_11Xsnapshotfoo", true)] =
      ([] : List String) := by decide
  rw [h1, h2] at hcontra
  exact absurd hcontra (by decide)

/-! ### C7: path classification -/

/-- A block of characters all satisfying the predicate passes through
`takeWhile` into the kept part. -/
theorem takeWhile_append_all (p : Char → Bool) (a b : List Char)
    (h : ∀ x ∈ a, p x = true) :
    (a ++ b).takeWhile p = a ++ b.takeWhile p := by
  induction a with
  | nil => rfl
  | cons c t ih =>
    have hc := h c (List.mem_cons_self c t)
    simp only [List.cons_append, List.takeWhile_cons, hc, if_true]
    rw [ih (fun x hx => h x (List.mem_cons_of_mem c hx))]

/-- A block of characters all satisfying the predicate is dropped whole by
`dropWhile`. -/
theorem dropWhile_append_all (p : Char → Bool) (a b : List Char)
    (h : ∀ x ∈ a, p x = true) :
    (a ++ b).dropWhile p = b.dropWhile p := by
  induction a with
  | nil => rfl
  | cons c t ih =>
    have hc := h c (List.mem_cons_self c t)
    simp only [List.cons_append, List.dropWhile_cons, hc, if_true]
    exact ih (fun x hx => h x (List.mem_cons_of_mem c hx))

/-- The splitter never returns an empty list of groups. -/
theorem splitChar_ne_nil (c : Char) (xs : List Char) : splitChar c xs ≠ [] := by
  induction xs with
  | nil => simp [splitChar]
  | cons x t ih =>
    simp only [splitChar]
    rcases hs : splitChar c t with _ | ⟨g, gs⟩
    · simp
    · by_cases hx : x = c <;> simp [hx]

/-- The first group of the splitter is the leading run of non-separator
characters. -/
theorem splitChar_headD (c : Char) (xs : List Char) :
    (splitChar c xs).headD [] = xs.takeWhile (fun x => x ≠ c) := by
  induction xs with
  | nil => rfl
  | cons x t ih =>
    simp only [splitChar]
    rcases hs : splitChar c t with _ | ⟨g, gs⟩
    · exact absurd hs (splitChar_ne_nil c t)
    · rw [hs] at ih
      by_cases hx : x = c
      · simp [hx, List.takeWhile_cons]
      · simp only [hx, if_false, List.headD_cons, List.takeWhile_cons,
          decide_eq_true (show x ≠ c from hx), if_true]
        rw [← ih]
        rfl

/-- Splitting a list free of the separator yields the single group. -/
theorem splitChar_single (c : Char) (xs : List Char) (h : c ∉ xs) :
    splitChar c xs = [xs] := by
  induction xs with
  | nil => rfl
  | cons x t ih =>
    have hx : ¬ x = c := fun he => h (he ▸ List.mem_cons_self x t)
    simp only [splitChar, ih (fun hm => h (List.mem_cons_of_mem x hm)), hx, if_false]

/-- Splitting a list that starts with a separator-free block followed by a
separator peels off that block as the first group. -/
theorem splitChar_append_cons (c : Char) (a b : List Char) (h : c ∉ a) :
    splitChar c (a ++ c :: b) = a :: splitChar c b := by
  induction a with
  | nil =>
    simp only [List.nil_append, splitChar]
    rcases hs : splitChar c b with _ | ⟨g, gs⟩
    · exact absurd hs (splitChar_ne_nil c b)
    · simp
  | cons x t ih =>
    have hx : ¬ x = c := fun he => h (he ▸ List.mem_cons_self x t)
    have ih' := ih (fun hm => h (List.mem_cons_of_mem x hm))
    simp only [List.cons_append, splitChar, List.append_eq, ih', hx, if_false]

/-- Characters of the remote specifier `user@host:path`. -/
theorem remoteSpec_data (u h p : String) :
    (u ++ "@" ++ h ++ ":" ++ p).data = u.data ++ '@' :: (h.data ++ ':' :: p.data) := by
  have h1 : ("@" : String).data = ['@'] := rfl
  have h2 : (":" : String).data = [':'] := rfl
  simp [strData_append, h1, h2]

/-- C7 (first half): classification of a well-formed remote specifier
returns exactly its user, host and path parts, unmodified.  The user and
host parts are assumed free of the `@`, `:` and `/` characters the split
keys on — exactly the `user@host:path` shape the claim quantifies over. -/
theorem parsePath_remote (env : Env) (u h p : String)
    (hu1 : ('@' : Char) ∉ u.data) (hu2 : (':' : Char) ∉ u.data)
    (hu3 : ('/' : Char) ∉ u.data)
    (hh1 : ('@' : Char) ∉ h.data) (hh2 : (':' : Char) ∉ h.data)
    (hh3 : ('/' : Char) ∉ h.data) :
    parsePath env (u ++ "@" ++ h ++ ":" ++ p) = (some u, some h, p) := by
  have hdata := remoteSpec_data u h p
  have hremote : isRemote (u ++ "@" ++ h ++ ":" ++ p) = true := by
    rw [isRemote, strHasChar]
    have hhead : ((strSplit (u ++ "@" ++ h ++ ":" ++ p) '/').headD "").data =
        (u.data ++ '@' :: (h.data ++ ':' :: p.data)).takeWhile (fun x => x ≠ '/') := by
      rw [strSplit]
      rcases hs : splitChar '/' (u ++ "@" ++ h ++ ":" ++ p).data with _ | ⟨g, gs⟩
      · exact absurd hs (splitChar_ne_nil _ _)
      · have := splitChar_headD '/' (u ++ "@" ++ h ++ ":" ++ p).data
        rw [hs] at this
        simp only [List.headD_cons] at this
        simp only [List.map_cons, List.headD_cons]
        rw [this, hdata]
    rw [List.contains_iff_exists_mem_beq]
    refine ⟨':', ?_, by simp⟩
    rw [hhead]
    rw [show u.data ++ '@' :: (h.data ++ ':' :: p.data) =
      (u.data ++ '@' :: h.data) ++ ':' :: p.data by simp]
    rw [takeWhile_append_all _ (u.data ++ '@' :: h.data) (':' :: p.data) ?all]
    · simp [List.takeWhile_cons]
    case all =>
      intro x hx
      rcases List.mem_append.mp hx with hx | hx
      · exact decide_eq_true (fun he => hu3 (he ▸ hx))
      · rcases List.mem_cons.mp hx with hx | hx
        · exact decide_eq_true (by simp [hx])
        · exact decide_eq_true (fun he => hh3 (he ▸ hx))
  have hbefore : strBeforeFirst (u ++ "@" ++ h ++ ":" ++ p) ':' =
      String.mk (u.data ++ '@' :: h.data) := by
    rw [strBeforeFirst, hdata]
    congr 1
    rw [show u.data ++ '@' :: (h.data ++ ':' :: p.data) =
      (u.data ++ '@' :: h.data) ++ ':' :: p.data by simp]
    rw [takeWhile_append_all _ (u.data ++ '@' :: h.data) (':' :: p.data) ?all2]
    · simp [List.takeWhile_cons]
    case all2 =>
      intro x hx
      rcases List.mem_append.mp hx with hx | hx
      · exact decide_eq_true (fun he => hu2 (he ▸ hx))
      · rcases List.mem_cons.mp hx with hx | hx
        · exact decide_eq_true (by simp [hx])
        · exact decide_eq_true (fun he => hh2 (he ▸ hx))
  have hafter : strAfterFirst (u ++ "@" ++ h ++ ":" ++ p) ':' = p := by
    rw [strAfterFirst, hdata]
    rw [show u.data ++ '@' :: (h.data ++ ':' :: p.data) =
      (u.data ++ '@' :: h.data) ++ ':' :: p.data by simp]
    rw [dropWhile_append_all _ (u.data ++ '@' :: h.data) (':' :: p.data) ?all3]
    · simp only [List.dropWhile_cons, decide_eq_true (show ¬ (':' : Char) ≠ ':' by simp),
        Bool.false_eq_true]
      simp [strMk_data]
    case all3 =>
      intro x hx
      rcases List.mem_append.mp hx with hx | hx
      · exact decide_eq_true (fun he => hu2 (he ▸ hx))
      · rcases List.mem_cons.mp hx with hx | hx
        · exact decide_eq_true (by simp [hx])
        · exact decide_eq_true (fun he => hh2 (he ▸ hx))
  have hsplitAt : strSplit (String.mk (u.data ++ '@' :: h.data)) '@' = [u, h] := by
    rw [strSplit]
    show (splitChar '@' (u.data ++ '@' :: h.data)).map String.mk = [u, h]
    rw [splitChar_append_cons '@' u.data h.data hu1, splitChar_single '@' h.data hh1]
    simp [strMk_data]
  have hhasAt : strHasChar (String.mk (u.data ++ '@' :: h.data)) '@' = true := by
    rw [strHasChar]
    show (u.data ++ '@' :: h.data).contains '@' = true
    rw [List.contains_iff_exists_mem_beq]
    exact ⟨'@', by simp, by simp⟩
  rw [parsePath, if_pos hremote, hbefore, hafter]
  simp [hsplitAt, hhasAt]

/-- A string starts with `/` exactly when its first character is `/`. -/
theorem startsWith_slash_iff (s : String) :
    strStartsWith s "/" = true ↔ ∃ t, s.data = '/' :: t := by
  rw [strStartsWith]
  rw [show ("/" : String).data = ['/'] from rfl]
  cases hs : s.data with
  | nil => simp [List.isPrefixOf]
  | cons a t =>
    simp only [List.isPrefixOf, Bool.and_true, beq_iff_eq]
    constructor
    · intro h1
      exact ⟨t, by rw [h1]⟩
    · rintro ⟨t', ht⟩
      rw [(List.cons.injEq a t '/' t').mp ht |>.1]

/-- A nonempty run of slashes followed by anything starts with `/`. -/
theorem mk_replicate_startsWith (k : Nat) (hk : 0 < k) (j : String) :
    strStartsWith (String.mk (List.replicate k '/') ++ j) "/" = true := by
  cases k with
  | zero => omega
  | succ k' =>
    exact (startsWith_slash_iff _).mpr ⟨List.replicate k' '/' ++ j.data, by
      rw [strData_append]
      simp [List.replicate_succ]⟩

/-- A nonempty run of slashes followed by anything is not the empty
string. -/
theorem mk_replicate_ne_empty (k : Nat) (hk : 0 < k) (j : String) :
    String.mk (List.replicate k '/') ++ j ≠ "" := by
  intro he
  obtain ⟨t, ht⟩ := (startsWith_slash_iff _).mp (mk_replicate_startsWith k hk j)
  rw [he] at ht
  exact absurd ht (by simp [show ("" : String).data = [] from rfl])

/-- Normalization preserves a leading slash. -/
theorem normPath_startsWith (s : String) (h : strStartsWith s "/" = true) :
    strStartsWith (normPath s) "/" = true := by
  have hne : s ≠ "" := by
    intro he
    subst he
    exact absurd h (by decide)
  rw [normPath, if_neg hne]
  dsimp only
  simp only [h, if_true]
  by_cases h2 : strStartsWith s "//" = true ∧ ¬ strStartsWith s "///" = true
  · rw [if_pos h2, if_neg (mk_replicate_ne_empty 2 (by omega) _)]
    exact mk_replicate_startsWith 2 (by omega) _
  · rw [if_neg h2, if_neg (mk_replicate_ne_empty 1 (by omega) _)]
    exact mk_replicate_startsWith 1 (by omega) _

/-- Joining onto an absolute base yields a path with a leading slash. -/
theorem pathJoin_startsWith (cwd p : String) (hc : strStartsWith cwd "/" = true) :
    strStartsWith (pathJoin cwd p) "/" = true := by
  rw [pathJoin]
  by_cases hp : strStartsWith p "/" = true
  · rw [if_pos hp]
    exact hp
  · rw [if_neg hp]
    obtain ⟨t, ht⟩ := (startsWith_slash_iff cwd).mp hc
    by_cases h2 : cwd = "" ∨ strEndsWith cwd "/" = true
    · rw [if_pos h2]
      exact (startsWith_slash_iff _).mpr ⟨t ++ p.data, by rw [strData_append, ht]; simp⟩
    · rw [if_neg h2]
      exact (startsWith_slash_iff _).mpr ⟨(t ++ ("/" : String).data) ++ p.data, by
        rw [strData_append, strData_append, ht]
        simp⟩

/-- Resolution against an absolute working directory is absolute. -/
theorem absPath_startsWith (cwd p : String) (hc : strStartsWith cwd "/" = true) :
    strStartsWith (absPath cwd p) "/" = true := by
  rw [absPath]
  by_cases hp : strStartsWith p "/" = true
  · rw [if_pos hp]
    exact normPath_startsWith p hp
  · rw [if_neg hp]
    exact normPath_startsWith _ (pathJoin_startsWith cwd p hc)

/-- C7: classification of a well-formed `user@host:path` specifier returns
exactly that user, host and path, unmodified; classification of a specifier
without a colon before the first path separator returns no user, no host,
and the path resolved through home expansion and absolutization — an
absolute path whenever the working directory is absolute. -/
theorem path_classification (env : Env) (u h p q : String)
    (hu1 : ('@' : Char) ∉ u.data) (hu2 : (':' : Char) ∉ u.data)
    (hu3 : ('/' : Char) ∉ u.data)
    (hh1 : ('@' : Char) ∉ h.data) (hh2 : (':' : Char) ∉ h.data)
    (hh3 : ('/' : Char) ∉ h.data)
    (hq : isRemote q = false) :
    parsePath env (u ++ "@" ++ h ++ ":" ++ p) = (some u, some h, p)
    ∧ parsePath env q = (none, none, absPath env.cwd (expandUser env.home q))
    ∧ (strStartsWith env.cwd "/" = true →
        strStartsWith (parsePath env q).2.2 "/" = true) := by
  refine ⟨parsePath_remote env u h p hu1 hu2 hu3 hh1 hh2 hh3, ?_, ?_⟩
  · simp [parsePath, hq]
  · intro hc
    rw [parsePath, if_neg (by simp [hq])]
    exact absPath_startsWith env.cwd _ hc

/-- Witness for C7 at a concrete input. -/
theorem path_classification_witness :
    parsePath ⟨"/cwd", "/home/seanh"⟩
        ("seanh" ++ "@" ++ "mydomain.org" ++ ":" ++ "/path/to/backups") =
      (some "seanh", some "mydomain.org", "/path/to/backups")
    ∧ parsePath ⟨"/cwd", "/home/seanh"⟩ "~/rel/p" =
      (none, none, absPath "/cwd" (expandUser "/home/seanh" "~/rel/p"))
    ∧ (strStartsWith "/cwd" "/" = true →
        strStartsWith (parsePath ⟨"/cwd", "/home/seanh"⟩ "~/rel/p").2.2 "/" = true) :=
  path_classification ⟨"/cwd", "/home/seanh"⟩ "seanh" "mydomain.org" "/path/to/backups"
    "~/rel/p" (by decide) (by decide) (by decide) (by decide) (by decide) (by decide)
    (by decide)

/-! ### C10: termination of the transfer/evict retry loop -/

/-- Deleting a path that is in the snapshot list strictly shrinks the
snapshot list. -/
theorem lsSnapshots_evict_lt (root : String) (l : List (String × Bool)) (p : String)
    (hp : p ∈ lsSnapshots root l) :
    (lsSnapshots root (l.filter (fun e => !(pathJoin root e.1 == p)))).length <
      (lsSnapshots root l).length := by
  have hpJ : p ∈ (l.filter (fun e => e.2 && reMatchSnapshotName e.1)).map
      (fun e => pathJoin root e.1) := by
    simpa [lsSnapshots, mem_sortStrings] using hp
  have hlists : ((l.filter (fun e => !(pathJoin root e.1 == p))).filter
        (fun e => e.2 && reMatchSnapshotName e.1)).map (fun e => pathJoin root e.1) =
      ((l.filter (fun e => e.2 && reMatchSnapshotName e.1)).map
        (fun e => pathJoin root e.1)).filter (fun x => x != p) := by
    rw [List.filter_map]
    congr 1
    rw [List.filter_filter, List.filter_filter]
    exact List.filter_congr (fun e _ => by
      simp only [Function.comp_apply]
      rw [Bool.and_comm]
      rfl)
  rw [lsSnapshots, length_sortStrings, hlists, lsSnapshots, length_sortStrings]
  exact List.length_filter_lt_length_iff_exists.mpr ⟨p, hpJ, by simp⟩

/-- A successful eviction strictly shrinks the snapshot list (and can only
happen above the retention floor). -/
theorem evict_decreases (w : World) (root : String) (user host : Option String)
    (minSnapshots : Nat) (st st' : St)
    (hrm : removeOldestSnapshot w root user host minSnapshots false st =
      (Except.ok (), st')) :
    (lsSnapshots root st'.listing).length < (lsSnapshots root st.listing).length ∧
      minSnapshots < (lsSnapshots root st.listing).length := by
  by_cases hle : (lsSnapshots root st.listing).length ≤ minSnapshots
  · simp [removeOldestSnapshot, hle] at hrm
  · have hne : lsSnapshots root st.listing ≠ [] := by
      intro hnil
      rw [hnil] at hle
      exact hle (by simp)
    refine ⟨?_, not_le.mp hle⟩
    simp only [removeOldestSnapshot, hle, dite_false, rm_dir_eq, run,
      Bool.false_eq_true, if_false, head_eq_headD _ hne] at hrm
    rcases hx : w.exec (wrapInSsh
        ["rm", "-r", "-f", (lsSnapshots root st.listing).headD ""] user host)
        st.listing with o | ⟨o, k⟩ | m <;> rw [hx] at hrm
    · simp only [Prod.mk.injEq, true_and] at hrm
      rw [← hrm]
      dsimp only
      rw [applyFx_rm_dir]
      exact lsSnapshots_evict_lt root st.listing _ (by
        rw [← head_eq_headD _ hne]
        exact List.head_mem hne)
    · simp at hrm
    · simp at hrm

/-- The transfer step never changes the listing of the snapshots root
(only the trace). -/
theorem rsync_state (w : World) (env : Env) (source dest : String) (debug : Bool)
    (extraArgs : List String) (st : St) :
    (rsync w env source dest debug extraArgs st).2.listing = st.listing := by
  rcases hy : w.exec (rsyncCmd env source dest debug extraArgs) st.listing
    with o | ⟨o, k⟩ | m
  · simp [rsync, run, hy, applyFx_rsyncCmd]
  · simp only [rsync, run, Bool.false_eq_true, if_false, hy]
    split <;> rfl
  · simp [rsync, run, hy]

/-- C10: with debug off (so evictions really execute and really delete the
listed oldest snapshot), the retry loop always terminates: fuel of one more
than the excess of listed snapshots over the retention floor is never
exhausted — the loop ends in success, in `NoMoreSnapshotsToRemove`, or in
some other fatal error, after at most that many space-exhaustion
failures. -/
theorem retry_loop_terminates (w : World) (env : Env) (source dest : String)
    (minSnapshots : Nat) (extraArgs : List String) (user host : Option String) :
    ∀ fuel st,
      (lsSnapshots ((parsePath env dest).2.2) st.listing).length - minSnapshots + 1 ≤
        fuel →
      (snapshotLoop w env source dest false minSnapshots extraArgs user host
        ((parsePath env dest).2.2) fuel st).1 ≠ Outcome.fuelOut := by
  intro fuel
  induction fuel with
  | zero => intro st hf; omega
  | succ n ih =>
    intro st hf
    rcases hr : rsync w env source dest false extraArgs st with ⟨res, st'⟩
    have hlist : st'.listing = st.listing := by
      have := rsync_state w env source dest false extraArgs st
      rw [hr] at this
      exact this
    cases res with
    | ok v => simp [snapshotLoop, hr]
    | error e =>
      cases e with
      | noSpaceLeft o =>
        simp only [snapshotLoop, hr]
        rcases hrm : removeOldestSnapshot w ((parsePath env dest).2.2) user host
            minSnapshots false st' with ⟨res2, st''⟩
        cases res2 with
        | error e2 => simp
        | ok v2 =>
          have hdec := evict_decreases w ((parsePath env dest).2.2) user host
            minSnapshots st' st'' (by rw [hrm])
          rw [hlist] at hdec
          exact ih st'' (by omega)
      | calledProcess c o k => simp [snapshotLoop, hr]
      | noSuchCommand c m => simp [snapshotLoop, hr]
      | noMoreSnapshots => simp [snapshotLoop, hr]

/-- Witness for C10 at a concrete input: a world whose transfer always
fails with the space signature, one listed snapshot, retention floor zero
and fuel two. -/
theorem retry_loop_terminates_witness :
    (snapshotLoop
      (World.mk (fun _ _ => ProcOut.fail "rsync: No space left on device (28)" 11))
      ⟨"/cwd", "/home"⟩ "/src" "/snaps" false 0 [] none none
      ((parsePath ⟨"/cwd", "/home"⟩ "/snaps").2.2) 2
      ⟨[("2021-01-01T00_00_00.snapshot", true)], []⟩).1 ≠ Outcome.fuelOut :=
  retry_loop_terminates
    (World.mk (fun _ _ => ProcOut.fail "rsync: No space left on device (28)" 11))
    ⟨"/cwd", "/home"⟩ "/src" "/snaps" 0 [] none none 2
    ⟨[("2021-01-01T00_00_00.snapshot", true)], []⟩ (by decide)

end Snapshotter
